import Mathlib

/-!
Verification development for the coDECLARE → LTLf assume–guarantee
contract-generation core (`semantics.py`, `ltlf_generator.py`,
`contract_builder.py`).

The external Declare4Py template library and the optional pylogics
string parser are third-party collaborators; they are abstracted as
oracle parameters (`fill`, `parseOk`) of the embedded functions.
Python strings are modelled as Lean `String`s (lists of characters);
Python `str.lower`, `str.strip` and `str.replace` are modelled by
explicit character-level functions below so that every definition is
executable by kernel reduction.
-/

namespace CoDeclare

/-- Model of Python `str.lower` restricted to ASCII (all proposition and
template names in play are ASCII). -/
def charLower (c : Char) : Char :=
  if 'A' ≤ c ∧ c ≤ 'Z' then Char.ofNat (c.toNat + 32) else c

/-- Lowercase a string, character by character (Python `s.lower()`). -/
def lower (s : String) : String := ⟨s.data.map charLower⟩

/-- Python `sep.join(parts)`. -/
def pyjoin (sep : String) : List String → String
  | [] => ""
  | [p] => p
  | p :: q :: rest => p ++ sep ++ pyjoin sep (q :: rest)

/-- A string is blank when all of its characters are whitespace (this is
exactly when Python `p and p.strip()` is falsy). -/
def isBlank (p : String) : Bool := p.data.all Char.isWhitespace

/-! ## `semantics.py` -/

/-- Helper for `exactly_one`: the list comprehension building one term per
position, where the negated propositions are all propositions at the other
positions (`before ++ after`), in original order. -/
def exactly_one_terms : List String → List String → List String
  | _, [] => []
  | before, p :: after =>
    let negs := (before ++ after).map (fun q => "!" ++ q)
    ("(" ++ p ++ (if negs.isEmpty then "" else " && " ++ pyjoin " && " negs) ++ ")")
      :: exactly_one_terms (before ++ [p]) after

/-- `_exactly_one` from `semantics.py`: an LTLf formula enforcing that
exactly one proposition of the list is true. -/
def exactly_one (props : List String) : String :=
  match props with
  | [] => "true"
  | _ => "(" ++ pyjoin " || " (exactly_one_terms [] props) ++ ")"

/-- `simple_trace_semantics` from `semantics.py`. -/
def simple_trace_semantics (props : List String) : String :=
  "G(" ++ exactly_one props ++ ")"

/-- `strict_alternation` from `semantics.py`. -/
def strict_alternation (env sysl : List String) : String :=
  let env_any := if env.isEmpty then "false" else "(" ++ pyjoin " || " env ++ ")"
  let sys_any := if sysl.isEmpty then "false" else "(" ++ pyjoin " || " sysl ++ ")"
  "G((" ++ env_any ++ ") -> X(" ++ sys_any ++ ")) && G((" ++ sys_any ++ ") -> X(" ++ env_any ++ "))"

/-! ## `ltlf_generator.py` -/

/-- `_clean` from `ltlf_generator.py` at character level: Python
`s.replace("con_", "")`, scanning left to right and removing every
non-overlapping occurrence of `con_`. -/
def stripCon : List Char → List Char
  | 'c' :: 'o' :: 'n' :: '_' :: rest => stripCon rest
  | c :: rest => c :: stripCon rest
  | [] => []

/-- `_clean` from `ltlf_generator.py`: strip Declare4Py's internal `con_`
prefix from a produced formula. -/
def clean (s : String) : String := ⟨stripCon s.data⟩

/-- A raw constraint descriptor as read from the input specification:
a template name and an ordered activity list. -/
structure RawConstraint where
  template : String
  activities : List String
deriving DecidableEq, Repr

/-- A generated constraint as stored by `LTLfGenerator.generate` (the
pylogics object field `obj` is removed again by `build_contract` before
the result is exposed, so it is not modelled). -/
structure GenConstraint where
  template : String
  activities : List String
  ltlf : String
deriving DecidableEq, Repr

/-- The closed set of supported template names from
`LTLfGenerator.__init__`. -/
def supported : List String :=
  ["next_a", "eventually_a", "eventually_a_then_b", "eventually_a_or_b",
   "eventually_a_next_b", "eventually_a_then_b_then_c",
   "eventually_a_next_b_next_c", "is_first_state_a", "is_second_state_a",
   "is_third_state_a", "last", "second_last", "third_last",
   "is_last_state_a", "is_second_last_state_a", "is_third_last_state_a",
   "precedence", "chain_precedence", "responded_existence",
   "chain_response", "not_chain_precedence", "not_chain_response",
   "response", "not_precedence", "not_response",
   "not_responded_existence", "alternate_response", "alternate_precedence",
   "absence2", "neg_succession", "not_coexistence", "succession"]

/-- The four manually defined template names handled by
`LTLfGenerator._manual`. -/
def manual_names : List String :=
  ["absence2", "neg_succession", "not_coexistence", "succession"]

/-- `LTLfGenerator._manual`: the four custom templates.  A `none` result
models the exception raised on a wrong arity (tuple-unpacking failure) or
an unknown manual name, which the caller catches and turns into a skip. -/
def manual (name : String) (acts : List String) : Option String :=
  if name = "absence2" then
    match acts with
    | [a] => some ("!F(" ++ a ++ " && X(F(" ++ a ++ ")))")
    | _ => none
  else if name = "neg_succession" then
    match acts with
    | [a, b] => some ("G(" ++ a ++ " -> !F(" ++ b ++ "))")
    | _ => none
  else if name = "not_coexistence" then
    match acts with
    | [a, b] => some ("!((F(" ++ a ++ ")) && (F(" ++ b ++ ")))")
    | _ => none
  else if name = "succession" then
    match acts with
    | [a, b] => some ("G(" ++ a ++ " -> F(" ++ b ++ ")) && (!" ++ b ++ ") U " ++ a)
    | _ => none
  else none

/-- `LTLfGenerator._declare4py`: arity dispatch onto the external
Declare4Py template library.  `fill` abstracts
`LTLTemplate(name).fill_template(...).formula`, receiving the positional
list arguments; `none` models an exception raised by the library, which
the caller catches and turns into a skip.  The `con_` prefix strip
(`_clean`) is applied to every formula the library returns.  For three or
more activities only the `response` template is accepted, with the
remaining activities joined as a disjunction of targets; every other
template raises (modelled as `none`). -/
def declare4py (fill : String → List (List String) → Option String)
    (template_name : String) (acts : List String) : Option String :=
  match acts with
  | [] => (fill template_name [[]]).map clean
  | [a] => (fill template_name [[a]]).map clean
  | [a, b] => (fill template_name [[a], [b]]).map clean
  | a :: rest =>
    if lower template_name = "response" then
      some ("G(" ++ a ++ " -> F(" ++ pyjoin " || " rest ++ "))")
    else none

/-- The per-constraint expansion step inside `LTLfGenerator.generate`:
manual templates go to `_manual`, all others to `_declare4py`. -/
def expand1 (fill : String → List (List String) → Option String)
    (name : String) (acts : List String) : Option String :=
  if name ∈ manual_names then manual name acts else declare4py fill name acts

/-- `LTLfGenerator.generate`: skip unsupported templates, expand the rest,
drop any constraint whose expansion or whose pylogics parse fails
(`parseOk` abstracts whether `parse_ltlf` succeeds on the formula
string). -/
def generate (fill : String → List (List String) → Option String)
    (parseOk : String → Bool) : List RawConstraint → List GenConstraint
  | [] => []
  | c :: rest =>
    let name := lower c.template
    if name ∈ supported then
      match expand1 fill name c.activities with
      | some s =>
        if parseOk s then
          { template := name, activities := c.activities, ltlf := s }
            :: generate fill parseOk rest
        else generate fill parseOk rest
      | none => generate fill parseOk rest
    else generate fill parseOk rest

/-! ## `contract_builder.py` -/

/-- `_conj` from `contract_builder.py`: drop blank entries, yield `true`
for an empty result, otherwise join with `&&`, parenthesising each
conjunct. -/
def conj (parts : List String) : String :=
  match parts.filter (fun p => !(isBlank p)) with
  | [] => "true"
  | ps => "(" ++ pyjoin ") && (" ps ++ ")"

/-- `_OPS` from `contract_builder.py`: the fixed operator/keyword
vocabulary excluded from atom extraction. -/
def OPS : List String :=
  ["G", "F", "X", "U", "W", "R", "true", "false",
   "&&", "||", "->", "<->", "!", "(", ")"]

/-- First character class of the identifier regex `[A-Za-z_]`. -/
def isIdentStart (c : Char) : Bool := c.isAlpha || c == '_'

/-- Continuation character class of the identifier regex `[A-Za-z0-9_]*`. -/
def isIdentChar (c : Char) : Bool := c.isAlphanum || c == '_'

/-- Scanner for `re.findall(r"[A-Za-z_][A-Za-z0-9_]*", ...)`: `cur` is
the (reversed) identifier currently being read, the second argument the
remaining input. -/
def tokAux : List Char → List Char → List String
  | [], [] => []
  | cur :: more, [] => [⟨(cur :: more).reverse⟩]
  | [], c :: cs => if isIdentStart c then tokAux [c] cs else tokAux [] cs
  | cur :: more, c :: cs =>
    if isIdentChar c then tokAux (c :: cur :: more) cs
    else (⟨(cur :: more).reverse⟩ : String) :: tokAux [] cs

/-- All maximal identifier tokens of a character list, in order. -/
def tokenize (cs : List Char) : List String := tokAux [] cs

/-- `_atoms_in` from `contract_builder.py`: all identifier tokens of a
formula that are not operator keywords (the Python version returns them
as a set; only membership in the result is ever used). -/
def atoms_in (formula : String) : List String :=
  (tokenize formula.data).filter (fun t => !(OPS.contains t))

/-- The side assigned to a constraint by the classifier ( `"A"` / `"G"` ). -/
inductive Side where
  | A : Side
  | G : Side
deriving DecidableEq, Repr

/-- The hard-coded directed-to-system template set inside `classify`. -/
def directed_to_sys : List String :=
  ["response", "chain_response", "alternate_response",
   "precedence", "chain_precedence", "alternate_precedence",
   "succession", "weak_link"]

/-- The inner `classify` of `_auto_reclassify`: assumption when only
environment atoms occur, guarantee when only system atoms occur, and
guarantee in every remaining case (the source's directed-template check
has two identical arms and is kept as written). -/
def classify (env sysl : List String) (c : GenConstraint) : Side :=
  let aps := atoms_in c.ltlf
  let has_env := aps.any (fun a => env.contains a)
  let has_sys := aps.any (fun a => sysl.contains a)
  if has_env && !has_sys then Side.A
  else if has_sys && !has_env then Side.G
  else
    let name := lower c.template
    if name ∈ directed_to_sys then Side.G else Side.G

/-- The classification loop of `_auto_reclassify`: traverse the
concatenation of both input lists, appending each constraint to the new
assumption list when it classifies as `A` and to the new guarantee list
otherwise. -/
def auto_reclassify (A_gen G_gen : List GenConstraint) (env sysl : List String) :
    List GenConstraint × List GenConstraint :=
  (A_gen ++ G_gen).foldl
    (fun acc c =>
      if classify env sysl c = Side.A then (acc.1 ++ [c], acc.2)
      else (acc.1, acc.2 ++ [c]))
    ([], [])

/-- The validated input specification received by `build_contract`. -/
structure CoSpec where
  environment : List String
  system : List String
  assumptions : List RawConstraint
  guarantees : List RawConstraint
deriving DecidableEq, Repr

/-- The output of `build_contract` (`env_semantics` / `sys_semantics`
hold the `simple_trace` formula strings that the Python code wraps in a
one-key dictionary). -/
structure Contract where
  assumptions_list : List GenConstraint
  guarantees_list : List GenConstraint
  env_semantics : String
  sys_semantics : String
  alternation : String
  contract_ltlf : String
  environment : List String
  system : List String
deriving DecidableEq, Repr

/-- `build_contract` from `contract_builder.py`. -/
def build_contract (fill : String → List (List String) → Option String)
    (parseOk : String → Bool) (spec : CoSpec) : Contract :=
  let env := spec.environment
  let sysl := spec.system
  let A_gen0 := generate fill parseOk spec.assumptions
  let G_gen0 := generate fill parseOk spec.guarantees
  let p := auto_reclassify A_gen0 G_gen0 env sysl
  let A_text := conj (p.1.map (fun x => x.ltlf))
  let G_text := conj (p.2.map (fun x => x.ltlf))
  let env_sem := simple_trace_semantics env
  let sys_sem := simple_trace_semantics sysl
  let alt := strict_alternation env sysl
  let left := conj [A_text, env_sem, alt]
  let right := conj [G_text, sys_sem, alt]
  { assumptions_list := p.1
    guarantees_list := p.2
    env_semantics := env_sem
    sys_semantics := sys_sem
    alternation := alt
    contract_ltlf := "(" ++ left ++ ") -> (" ++ right ++ ")"
    environment := env
    system := sysl }

/-- The contribution of a single constraint to `generate`'s output. -/
def gen1 (fill : String → List (List String) → Option String)
    (parseOk : String → Bool) : RawConstraint → List GenConstraint
  | ⟨t, as⟩ =>
    if lower t ∈ supported then
      match expand1 fill (lower t) as with
      | some s => if parseOk s then [{ template := lower t, activities := as, ltlf := s }] else []
      | none => []
    else []

/-- A string shaped like one identifier token: non-empty, starting with
`[A-Za-z_]` and continuing with `[A-Za-z0-9_]*`. -/
def identString (p : String) : Bool :=
  match p.data with
  | [] => false
  | c :: cs => isIdentStart c && cs.all isIdentChar

/-- Syntactic balance in the sense of the spec: equal counts of opening
and closing parentheses. -/
def balanced (s : String) : Prop := s.data.count '(' = s.data.count ')'

instance (s : String) : Decidable (balanced s) := by
  unfold balanced
  infer_instance

/-- Every identifier token of `s` is either an operator keyword or a
member of `P`. -/
def TokOK (P : List String) (s : String) : Prop :=
  ∀ t ∈ tokenize s.data, t ∈ OPS ∨ t ∈ P

/-! ## General-purpose helper lemmas -/

theorem str_ext {s t : String} (h : s.data = t.data) : s = t := by
  cases s; cases t; exact congrArg String.mk h

theorem data_append (s t : String) : (s ++ t).data = s.data ++ t.data := rfl

/-- `classify` in closed form: Assumption exactly when the formula has an
environment atom and no system atom, Guarantee otherwise. -/
theorem classify_eq (env sysl : List String) (c : GenConstraint) :
    classify env sysl c =
      if ((atoms_in c.ltlf).any fun a => env.contains a)
          && !((atoms_in c.ltlf).any fun a => sysl.contains a) then Side.A
      else Side.G := by
  simp only [classify]
  cases h1 : (atoms_in c.ltlf).any fun a => env.contains a <;>
    cases h2 : (atoms_in c.ltlf).any fun a => sysl.contains a <;>
      simp [h1, h2]

/-- The classification loop of `_auto_reclassify` is the evident pair of
filters over the concatenated input. -/
theorem auto_reclassify_filter (A G : List GenConstraint) (env sysl : List String) :
    auto_reclassify A G env sysl =
      ((A ++ G).filter (fun c => decide (classify env sysl c = Side.A)),
       (A ++ G).filter (fun c => !decide (classify env sysl c = Side.A))) := by
  unfold auto_reclassify
  generalize A ++ G = l
  suffices h : ∀ (l : List GenConstraint) (a g : List GenConstraint),
      l.foldl
          (fun acc c =>
            if classify env sysl c = Side.A then (acc.1 ++ [c], acc.2)
            else (acc.1, acc.2 ++ [c])) (a, g)
        = (a ++ l.filter (fun c => decide (classify env sysl c = Side.A)),
           g ++ l.filter (fun c => !decide (classify env sysl c = Side.A))) by
    simpa using h l [] []
  intro l
  induction l with
  | nil => intro a g; simp
  | cons c l ih =>
    intro a g
    by_cases hc : classify env sysl c = Side.A
    · simp [hc, ih, List.append_assoc]
    · simp [hc, ih, List.append_assoc]

/-- Claim C2: a surviving constraint is assigned the Assumption side when
its formula mentions an environment proposition and no system
proposition, the Guarantee side when it mentions a system proposition and
no environment proposition, and the Guarantee side in every remaining
case; the assignment depends only on the constraint, not on which input
list it came from. -/
theorem classify_sides (env sysl : List String) (c : GenConstraint) :
    (((atoms_in c.ltlf).any (fun a => env.contains a) = true ∧
          (atoms_in c.ltlf).any (fun a => sysl.contains a) = false) →
        classify env sysl c = Side.A)
    ∧ (((atoms_in c.ltlf).any (fun a => sysl.contains a) = true ∧
          (atoms_in c.ltlf).any (fun a => env.contains a) = false) →
        classify env sysl c = Side.G)
    ∧ (¬((atoms_in c.ltlf).any (fun a => env.contains a) = true ∧
          (atoms_in c.ltlf).any (fun a => sysl.contains a) = false) →
        classify env sysl c = Side.G)
    ∧ ∀ A G : List GenConstraint, c ∈ A ++ G →
        (c ∈ (auto_reclassify A G env sysl).1 ↔ classify env sysl c = Side.A) := by
  refine ⟨?_, ?_, ?_, ?_⟩
  · rintro ⟨h1, h2⟩
    rw [classify_eq, h1, h2]
    rfl
  · rintro ⟨h1, h2⟩
    rw [classify_eq, h2]
    rfl
  · intro h
    rw [classify_eq]
    rcases Bool.eq_false_or_eq_true ((atoms_in c.ltlf).any fun a => env.contains a) with he | he
    · have hs : ((atoms_in c.ltlf).any fun a => sysl.contains a) = true := by
        rcases Bool.eq_false_or_eq_true ((atoms_in c.ltlf).any fun a => sysl.contains a) with hs | hs
        · exact hs
        · exact absurd ⟨he, hs⟩ h
      rw [he, hs]
      rfl
    · rw [he]
      rfl
  · intro A G hmem
    rw [auto_reclassify_filter]
    simp only [List.mem_filter, decide_eq_true_eq]
    exact ⟨fun h => h.2, fun h => ⟨hmem, h⟩⟩

/-- Claim C2 witness: concrete classifications on singleton proposition
sets. -/
theorem classify_sides_witness :
    classify ["e"] ["s"] ⟨"absence2", ["e"], "!F(e && X(F(e)))"⟩ = Side.A
    ∧ classify ["e"] ["s"] ⟨"response", ["e", "s"], "G(e -> F(s))"⟩ = Side.G := by
  refine ⟨(classify_sides ["e"] ["s"] _).1 ⟨by decide, by decide⟩,
          (classify_sides ["e"] ["s"] _).2.2.1 (by decide)⟩

/-- Claim C3 counterexample: the manual `not_coexistence` template applied
to `(a, b)` does not produce the spec's string `!(F(a) && F(b))`; the
source adds one extra pair of parentheses around each `F(...)`. -/
theorem not_coexistence_cex :
    manual "not_coexistence" ["a", "b"] = some "!((F(a)) && (F(b)))"
    ∧ manual "not_coexistence" ["a", "b"] ≠ some "!(F(a) && F(b))" := by
  constructor <;> decide

/-- Claim C3 amended: for every pair of distinct proposition names `a`,
`b`, expanding the manual template `not_coexistence` on `(a, b)` returns
exactly `!((F(a)) && (F(b)))`. -/
theorem not_coexistence_amended (a b : String) (_h : a ≠ b) :
    manual "not_coexistence" [a, b] =
      some ("!((F(" ++ a ++ ")) && (F(" ++ b ++ ")))") := by
  unfold manual
  rw [if_neg (by decide), if_neg (by decide), if_pos rfl]

/-- Claim C3 amended, witness at `a`, `b`. -/
theorem not_coexistence_amended_witness :
    manual "not_coexistence" ["a", "b"] = some "!((F(a)) && (F(b)))" := by
  have h := not_coexistence_amended "a" "b" (by decide)
  simpa using h

/-- Claim C4 counterexample: `simple_trace_semantics ["a"]` is not the
spec's `G(a)`; the source wraps the singleton in two extra pairs of
parentheses. -/
theorem simple_trace_singleton_cex :
    simple_trace_semantics ["a"] = "G(((a)))"
    ∧ simple_trace_semantics ["a"] ≠ "G(a)" := by
  constructor <;> decide

/-- Claim C4 amended: `simple_trace_semantics []` is exactly `G(true)`,
and on a singleton `[a]` the result is exactly `G(((a)))` — the
exactly-one disjunction over a singleton is the proposition itself, but
wrapped in the term and disjunction parentheses added by the source. -/
theorem simple_trace_semantics_values :
    simple_trace_semantics [] = "G(true)"
    ∧ ∀ a : String, simple_trace_semantics [a] = "G(((" ++ a ++ ")))" := by
  refine ⟨rfl, fun a => ?_⟩
  apply str_ext
  simp [simple_trace_semantics, exactly_one, exactly_one_terms, pyjoin, data_append]

/-- Claim C5 counterexample: `strict_alternation [] []` is not the spec's
`G(false -> X(false)) && G(false -> X(false))`; the source parenthesises
the antecedent `false`. -/
theorem strict_alternation_empty_cex :
    strict_alternation [] [] ≠ "G(false -> X(false)) && G(false -> X(false))" := by
  decide

/-- Claim C5 amended: `strict_alternation [] []` is exactly
`G((false) -> X(false)) && G((false) -> X(false))`. -/
theorem strict_alternation_empty_eq :
    strict_alternation [] [] = "G((false) -> X(false)) && G((false) -> X(false))" := by
  decide

/-- Claim C8: classification is idempotent — feeding the classifier's two
output lists back in as the new assumption/guarantee inputs returns the
same two lists. -/
theorem reclassify_idempotent (A G : List GenConstraint) (env sysl : List String)
    (_hdisj : ∀ p ∈ env, p ∉ sysl) :
    auto_reclassify (auto_reclassify A G env sysl).1 (auto_reclassify A G env sysl).2 env sysl
      = auto_reclassify A G env sysl := by
  rw [auto_reclassify_filter A G, auto_reclassify_filter]
  simp [List.filter_append, List.filter_filter]

/-- Claim C8 witness: idempotence at a concrete mixed input. -/
theorem reclassify_idempotent_witness :
    auto_reclassify
        (auto_reclassify [⟨"response", ["e", "s"], "G(e -> F(s))"⟩]
            [⟨"absence2", ["e"], "!F(e && X(F(e)))"⟩] ["e"] ["s"]).1
        (auto_reclassify [⟨"response", ["e", "s"], "G(e -> F(s))"⟩]
            [⟨"absence2", ["e"], "!F(e && X(F(e)))"⟩] ["e"] ["s"]).2 ["e"] ["s"]
      = auto_reclassify [⟨"response", ["e", "s"], "G(e -> F(s))"⟩]
          [⟨"absence2", ["e"], "!F(e && X(F(e)))"⟩] ["e"] ["s"] :=
  reclassify_idempotent _ _ _ _ (by decide)

/-- Claim C10: when every identifier token of a constraint's formula lies
in the classifier's fixed operator/keyword vocabulary, atom extraction
returns the empty set and the constraint is classified Guarantee —
whatever the environment and system proposition lists are. -/
theorem keyword_formula_guarantee (env sysl : List String) (c : GenConstraint)
    (h : ∀ t ∈ tokenize c.ltlf.data, t ∈ ["G", "F", "X", "U", "W", "R", "true", "false"]) :
    atoms_in c.ltlf = [] ∧ classify env sysl c = Side.G := by
  have hempty : atoms_in c.ltlf = [] := by
    unfold atoms_in
    rw [List.filter_eq_nil_iff]
    intro t ht
    have hmem := h t ht
    fin_cases hmem <;> decide
  refine ⟨hempty, ?_⟩
  rw [classify_eq, hempty]
  rfl

/-- Claim C10 witness: a formula that is literally the single keyword `F`
has no atoms and is classified Guarantee even though `F` is listed as an
environment proposition. -/
theorem keyword_formula_guarantee_witness :
    atoms_in "F" = [] ∧ classify ["F"] [] ⟨"absence2", ["F"], "F"⟩ = Side.G :=
  keyword_formula_guarantee ["F"] [] ⟨"absence2", ["F"], "F"⟩ (by decide)

/-! ## Helper lemmas about `generate` -/

/-- One unfolding step of `generate`, with the record fields exposed. -/
theorem generate_cons (fill : String → List (List String) → Option String)
    (parseOk : String → Bool) (t : String) (as : List String)
    (rest : List RawConstraint) :
    generate fill parseOk (⟨t, as⟩ :: rest) =
      (if lower t ∈ supported then
        match expand1 fill (lower t) as with
        | some s =>
          if parseOk s then
            ({ template := lower t, activities := as, ltlf := s } : GenConstraint)
              :: generate fill parseOk rest
          else generate fill parseOk rest
        | none => generate fill parseOk rest
      else generate fill parseOk rest) := rfl

theorem gen1_mk (fill : String → List (List String) → Option String)
    (parseOk : String → Bool) (t : String) (as : List String) :
    gen1 fill parseOk ⟨t, as⟩ =
      (if lower t ∈ supported then
        match expand1 fill (lower t) as with
        | some s =>
          if parseOk s then
            [({ template := lower t, activities := as, ltlf := s } : GenConstraint)]
          else []
        | none => []
      else []) := rfl

theorem generate_cons_eq (fill : String → List (List String) → Option String)
    (parseOk : String → Bool) (c : RawConstraint) (cs : List RawConstraint) :
    generate fill parseOk (c :: cs) = gen1 fill parseOk c ++ generate fill parseOk cs := by
  obtain ⟨t, as⟩ := c
  rw [generate_cons, gen1_mk]
  by_cases hmem : lower t ∈ supported
  · rw [if_pos hmem, if_pos hmem]
    cases expand1 fill (lower t) as with
    | none => rfl
    | some s => by_cases hp : parseOk s = true <;> simp [hp]
  · rw [if_neg hmem, if_neg hmem]
    rfl

theorem generate_append (fill : String → List (List String) → Option String)
    (parseOk : String → Bool) (xs ys : List RawConstraint) :
    generate fill parseOk (xs ++ ys)
      = generate fill parseOk xs ++ generate fill parseOk ys := by
  induction xs with
  | nil => rfl
  | cons c xs ih =>
    rw [List.cons_append, generate_cons_eq, generate_cons_eq, ih, List.append_assoc]

theorem gen1_unsupported (fill : String → List (List String) → Option String)
    (parseOk : String → Bool) (c : RawConstraint)
    (h : lower c.template ∉ supported) :
    gen1 fill parseOk c = [] := by
  obtain ⟨t, as⟩ := c
  rw [gen1_mk]
  exact if_neg h

/-- Every record produced by `generate` carries a supported (lowered)
template name. -/
theorem generate_template_supported (fill : String → List (List String) → Option String)
    (parseOk : String → Bool) (cs : List RawConstraint) :
    ∀ r ∈ generate fill parseOk cs, r.template ∈ supported := by
  induction cs with
  | nil => intro r hr; simp [generate] at hr
  | cons c cs ih =>
    intro r hr
    rw [generate_cons_eq] at hr
    rcases List.mem_append.mp hr with h1 | h2
    · obtain ⟨t, as⟩ := c
      rw [gen1_mk] at h1
      by_cases hmem : lower t ∈ supported
      · rw [if_pos hmem] at h1
        cases hexp : expand1 fill (lower t) as with
        | none => rw [hexp] at h1; simp at h1
        | some s =>
          rw [hexp] at h1
          by_cases hp : parseOk s = true
          · simp [hp] at h1
            subst h1
            exact hmem
          · simp [hp] at h1
      · rw [if_neg hmem] at h1
        simp at h1
    · exact ih r h2

/-- Claim C1: the final contract formula is exactly `(left) -> (right)`,
where `left` conjoins the assumption-side text, the environment trace
semantics and the alternation formula, and `right` conjoins the
guarantee-side text, the system trace semantics and the alternation
formula; every conjunction (including `A_text` / `G_text`) is formed by
`_conj`'s rule: an empty or all-blank list yields `true`, a list of
non-blank formulas `f1..fn` yields `(f1) && (f2) && ... && (fn)`. -/
theorem build_contract_composition
    (fill : String → List (List String) → Option String)
    (parseOk : String → Bool) (spec : CoSpec) :
    ((build_contract fill parseOk spec).contract_ltlf =
        "(" ++ conj [conj ((build_contract fill parseOk spec).assumptions_list.map
                      (fun x => x.ltlf)),
                     (build_contract fill parseOk spec).env_semantics,
                     (build_contract fill parseOk spec).alternation] ++
        ") -> (" ++
        conj [conj ((build_contract fill parseOk spec).guarantees_list.map
                (fun x => x.ltlf)),
              (build_contract fill parseOk spec).sys_semantics,
              (build_contract fill parseOk spec).alternation] ++ ")")
    ∧ (build_contract fill parseOk spec).env_semantics
        = simple_trace_semantics spec.environment
    ∧ (build_contract fill parseOk spec).sys_semantics
        = simple_trace_semantics spec.system
    ∧ (build_contract fill parseOk spec).alternation
        = strict_alternation spec.environment spec.system
    ∧ (∀ fs : List String, (∀ f ∈ fs, isBlank f = true) → conj fs = "true")
    ∧ (∀ fs : List String, fs ≠ [] → (∀ f ∈ fs, isBlank f = false) →
        conj fs = "(" ++ pyjoin ") && (" fs ++ ")") := by
  refine ⟨rfl, rfl, rfl, rfl, ?_, ?_⟩
  · intro fs h
    unfold conj
    have hf : fs.filter (fun p => !(isBlank p)) = [] := by
      rw [List.filter_eq_nil_iff]
      intro f hm
      simp [h f hm]
    rw [hf]
  · intro fs hne h
    unfold conj
    have hf : fs.filter (fun p => !(isBlank p)) = fs := by
      rw [List.filter_eq_self]
      intro f hm
      simp [h f hm]
    rw [hf]
    cases fs with
    | nil => exact absurd rfl hne
    | cons p ps => rfl

/-- Claim C1 witness: the composition at a concrete one-guarantee
specification, and the conjunction rule at a blank and a non-blank
list. -/
theorem build_contract_composition_witness :
    ((build_contract (fun _ _ => none) (fun _ => true)
        ⟨["e"], ["s"], [], [⟨"succession", ["e", "s"]⟩]⟩).contract_ltlf =
      "(" ++ conj [conj ((build_contract (fun _ _ => none) (fun _ => true)
                    ⟨["e"], ["s"], [], [⟨"succession", ["e", "s"]⟩]⟩).assumptions_list.map
                    (fun x => x.ltlf)),
                   (build_contract (fun _ _ => none) (fun _ => true)
                    ⟨["e"], ["s"], [], [⟨"succession", ["e", "s"]⟩]⟩).env_semantics,
                   (build_contract (fun _ _ => none) (fun _ => true)
                    ⟨["e"], ["s"], [], [⟨"succession", ["e", "s"]⟩]⟩).alternation] ++
      ") -> (" ++
      conj [conj ((build_contract (fun _ _ => none) (fun _ => true)
              ⟨["e"], ["s"], [], [⟨"succession", ["e", "s"]⟩]⟩).guarantees_list.map
              (fun x => x.ltlf)),
            (build_contract (fun _ _ => none) (fun _ => true)
              ⟨["e"], ["s"], [], [⟨"succession", ["e", "s"]⟩]⟩).sys_semantics,
            (build_contract (fun _ _ => none) (fun _ => true)
              ⟨["e"], ["s"], [], [⟨"succession", ["e", "s"]⟩]⟩).alternation] ++ ")")
    ∧ conj ["", " "] = "true"
    ∧ conj ["x", "y"] = "(x) && (y)" := by
  obtain ⟨h1, _, _, _, h5, h6⟩ :=
    build_contract_composition (fun _ _ => none) (fun _ => true)
      ⟨["e"], ["s"], [], [⟨"succession", ["e", "s"]⟩]⟩
  refine ⟨h1, ?_, ?_⟩
  · exact h5 ["", " "] (by decide)
  · have h := h6 ["x", "y"] (by decide) (by decide)
    simpa using h

/-- `_manual` rejects every activity list of length three or more,
whatever the template name. -/
theorem manual_none_of_long (name a b c : String) (rest : List String) :
    manual name (a :: b :: c :: rest) = none := by
  simp [manual]

/-- `_declare4py` rejects every activity list of length three or more
unless the template is `response`. -/
theorem declare4py_none_of_long (fill : String → List (List String) → Option String)
    (name : String) (hname : lower name ≠ "response") (a b c : String)
    (rest : List String) :
    declare4py fill name (a :: b :: c :: rest) = none := by
  unfold declare4py
  exact if_neg hname

/-- A single-constraint run of `generate` yields nothing when the
expansion fails (or the template is unsupported). -/
theorem generate_single_none (fill : String → List (List String) → Option String)
    (parseOk : String → Bool) (t : String) (as : List String)
    (hexp : lower t ∈ supported → expand1 fill (lower t) as = none) :
    generate fill parseOk [⟨t, as⟩] = [] := by
  rw [generate_cons]
  by_cases hmem : lower t ∈ supported
  · rw [if_pos hmem, hexp hmem]
    rfl
  · rw [if_neg hmem]
    rfl

/-- Claim C6: with three or more activities, expansion succeeds only for
the `response` template, producing the implication from the first
activity to eventually the disjunction of the remaining activities;
every other template with three or more activities is an arity error and
the constraint is dropped from the expander's output. -/
theorem response_multi_arity
    (fill : String → List (List String) → Option String)
    (parseOk : String → Bool) (tmpl a b c : String) (rest : List String) :
    (lower tmpl = "response" →
      expand1 fill (lower tmpl) (a :: b :: c :: rest) =
          some ("G(" ++ a ++ " -> F(" ++ pyjoin " || " (b :: c :: rest) ++ "))")
        ∧ generate fill parseOk [⟨tmpl, a :: b :: c :: rest⟩] =
            (if parseOk ("G(" ++ a ++ " -> F(" ++ pyjoin " || " (b :: c :: rest) ++ "))") then
              [⟨"response", a :: b :: c :: rest,
                "G(" ++ a ++ " -> F(" ++ pyjoin " || " (b :: c :: rest) ++ "))"⟩]
            else []))
    ∧ (lower tmpl ≠ "response" →
        generate fill parseOk [⟨tmpl, a :: b :: c :: rest⟩] = []) := by
  constructor
  · intro h
    have hexp : expand1 fill "response" (a :: b :: c :: rest) =
        some ("G(" ++ a ++ " -> F(" ++ pyjoin " || " (b :: c :: rest) ++ "))") := by
      unfold expand1
      rw [if_neg (by decide)]
      show (if lower "response" = "response" then
            some ("G(" ++ a ++ " -> F(" ++ pyjoin " || " (b :: c :: rest) ++ "))")
          else none)
        = some ("G(" ++ a ++ " -> F(" ++ pyjoin " || " (b :: c :: rest) ++ "))")
      rw [if_pos (by decide)]
    refine ⟨by rw [h]; exact hexp, ?_⟩
    rw [generate_cons, h, if_pos (by decide), hexp]
    by_cases hp : parseOk ("G(" ++ a ++ " -> F(" ++ pyjoin " || " (b :: c :: rest) ++ "))") = true <;>
      simp [hp, generate]
  · intro hne
    apply generate_single_none
    intro hmem
    have hd := hmem
    simp only [supported, List.mem_cons, List.not_mem_nil, or_false] at hd
    rcases hd with h|h|h|h|h|h|h|h|h|h|h|h|h|h|h|h|h|h|h|h|h|h|h|h|h|h|h|h|h|h|h|h <;>
      first
        | exact absurd h hne
        | (rw [h]; unfold expand1; rw [if_neg (by decide)];
           exact declare4py_none_of_long fill _ (by decide) a b c rest)
        | (rw [h]; unfold expand1; rw [if_pos (by decide)];
           exact manual_none_of_long _ a b c rest)

/-- Claim C6 witness: `response` on three activities produces the
disjunctive target, `absence2` on three activities is dropped. -/
theorem response_multi_arity_witness :
    generate (fun _ _ => none) (fun _ => true) [⟨"response", ["a", "b", "c"]⟩] =
        [⟨"response", ["a", "b", "c"], "G(a -> F(b || c))"⟩]
    ∧ generate (fun _ _ => none) (fun _ => true) [⟨"absence2", ["a", "b", "c"]⟩] = [] := by
  constructor
  · rw [((response_multi_arity (fun _ _ => none) (fun _ => true)
        "response" "a" "b" "c" []).1 (by decide)).2]
    decide
  · exact (response_multi_arity (fun _ _ => none) (fun _ => true)
      "absence2" "a" "b" "c" []).2 (by decide)

/-- Claim C7: a constraint naming a template outside the closed supported
set is skipped without affecting anything else: `build_contract` returns
exactly what it returns on the input with that constraint removed
(whether it sat among the assumptions or the guarantees), the run never
aborts, and no record with that template name reaches either output
list. -/
theorem unsupported_template_skipped
    (fill : String → List (List String) → Option String)
    (parseOk : String → Bool) (env sysl : List String)
    (xs ys as gs : List RawConstraint) (c : RawConstraint)
    (h : lower c.template ∉ supported) :
    build_contract fill parseOk ⟨env, sysl, xs ++ c :: ys, gs⟩
        = build_contract fill parseOk ⟨env, sysl, xs ++ ys, gs⟩
    ∧ build_contract fill parseOk ⟨env, sysl, as, xs ++ c :: ys⟩
        = build_contract fill parseOk ⟨env, sysl, as, xs ++ ys⟩
    ∧ ∀ r ∈ (build_contract fill parseOk ⟨env, sysl, xs ++ c :: ys, gs⟩).assumptions_list ++
            (build_contract fill parseOk ⟨env, sysl, xs ++ c :: ys, gs⟩).guarantees_list,
        r.template ∈ supported ∧ r.template ≠ lower c.template := by
  have hgen : generate fill parseOk (xs ++ c :: ys) = generate fill parseOk (xs ++ ys) := by
    rw [generate_append, generate_append, generate_cons_eq,
      gen1_unsupported fill parseOk c h, List.nil_append]
  refine ⟨?_, ?_, ?_⟩
  · simp only [build_contract, hgen]
  · simp only [build_contract, hgen]
  · intro r hr
    have hsup : r.template ∈ supported := by
      rcases List.mem_append.mp hr with h1 | h1
      · have h2 : r ∈ (auto_reclassify (generate fill parseOk (xs ++ c :: ys))
            (generate fill parseOk gs) env sysl).1 := h1
        rw [auto_reclassify_filter] at h2
        rcases List.mem_append.mp (List.mem_filter.mp h2).1 with h3 | h3
        · exact generate_template_supported fill parseOk _ r h3
        · exact generate_template_supported fill parseOk _ r h3
      · have h2 : r ∈ (auto_reclassify (generate fill parseOk (xs ++ c :: ys))
            (generate fill parseOk gs) env sysl).2 := h1
        rw [auto_reclassify_filter] at h2
        rcases List.mem_append.mp (List.mem_filter.mp h2).1 with h3 | h3
        · exact generate_template_supported fill parseOk _ r h3
        · exact generate_template_supported fill parseOk _ r h3
    refine ⟨hsup, fun heq => h ?_⟩
    rw [← heq]
    exact hsup

/-- Claim C7 witness: a `bogus` template among the guarantees is dropped
and the rest of the pipeline is unaffected. -/
theorem unsupported_template_skipped_witness :
    build_contract (fun _ _ => none) (fun _ => true)
        ⟨["e"], ["s"], [⟨"bogus", ["e"]⟩], [⟨"succession", ["e", "s"]⟩]⟩
      = build_contract (fun _ _ => none) (fun _ => true)
          ⟨["e"], ["s"], [], [⟨"succession", ["e", "s"]⟩]⟩ :=
  (unsupported_template_skipped (fun _ _ => none) (fun _ => true) ["e"] ["s"]
    [] [] [] [⟨"succession", ["e", "s"]⟩] ⟨"bogus", ["e"]⟩ (by decide)).1

/-! ## Tokenizer lemmas -/

theorem identStart_le (c : Char) (h : isIdentStart c = true) : isIdentChar c = true := by
  simp only [isIdentStart, Bool.or_eq_true] at h
  simp only [isIdentChar, Char.isAlphanum, Bool.or_eq_true]
  rcases h with h1 | h1
  · exact Or.inl (Or.inl h1)
  · exact Or.inr h1

theorem identChar_false_start (c : Char) (h : isIdentChar c = false) :
    isIdentStart c = false := by
  cases hs : isIdentStart c
  · rfl
  · rw [identStart_le c hs] at h
    exact absurd h (by decide)

/-- Scanning past a non-identifier character flushes the current token and
restarts the scanner. -/
theorem tokAux_break (c : Char) (hc : isIdentChar c = false) :
    ∀ (xs cur ys : List Char),
      tokAux cur (xs ++ c :: ys) = tokAux cur (xs ++ [c]) ++ tokAux [] ys := by
  intro xs
  induction xs with
  | nil =>
    intro cur ys
    cases cur with
    | nil => simp [tokAux, identChar_false_start c hc]
    | cons d ds => simp [tokAux, hc]
  | cons x xs ih =>
    intro cur ys
    cases cur with
    | nil =>
      cases hx : isIdentStart x
      · simpa [tokAux, hx] using ih [] ys
      · simpa [tokAux, hx] using ih [x] ys
    | cons d ds =>
      cases hx : isIdentChar x
      · simpa [tokAux, hx] using ih [] ys
      · simpa [tokAux, hx] using ih (x :: d :: ds) ys

/-- A trailing non-identifier character contributes nothing. -/
theorem tokAux_drop (c : Char) (hc : isIdentChar c = false) :
    ∀ (xs cur : List Char), tokAux cur (xs ++ [c]) = tokAux cur xs := by
  intro xs
  induction xs with
  | nil =>
    intro cur
    cases cur with
    | nil => simp [tokAux, identChar_false_start c hc]
    | cons d ds => simp [tokAux, hc]
  | cons x xs ih =>
    intro cur
    cases cur with
    | nil =>
      cases hx : isIdentStart x
      · simpa [tokAux, hx] using ih []
      · simpa [tokAux, hx] using ih [x]
    | cons d ds =>
      cases hx : isIdentChar x
      · simpa [tokAux, hx] using ih []
      · simpa [tokAux, hx] using ih (x :: d :: ds)

/-- Tokens never span a non-identifier character. -/
theorem tokenize_split (c : Char) (hc : isIdentChar c = false) (xs ys : List Char) :
    tokenize (xs ++ c :: ys) = tokenize xs ++ tokenize ys := by
  unfold tokenize
  rw [tokAux_break c hc, tokAux_drop c hc]

theorem tokenize_cons_nonident (c : Char) (hc : isIdentChar c = false) (cs : List Char) :
    tokenize (c :: cs) = tokenize cs := by
  unfold tokenize
  simp [tokAux, identChar_false_start c hc]

theorem tokAux_all_ident :
    ∀ (cs : List Char), (∀ x ∈ cs, isIdentChar x = true) →
      ∀ (d : Char) (ds : List Char),
        tokAux (d :: ds) cs = [⟨(d :: ds).reverse ++ cs⟩] := by
  intro cs
  induction cs with
  | nil => intro _ d ds; simp [tokAux]
  | cons x cs ih =>
    intro h d ds
    have hx : isIdentChar x = true := h x (List.mem_cons_self x cs)
    have hrest : ∀ y ∈ cs, isIdentChar y = true := fun y hy => h y (List.mem_cons_of_mem x hy)
    simp only [tokAux, hx, if_pos]
    rw [ih hrest x (d :: ds)]
    simp

/-- An identifier string is one single token, namely itself. -/
theorem tokenize_identStr (p : String) (h : identString p = true) :
    tokenize p.data = [p] := by
  cases hp : p.data with
  | nil =>
    unfold identString at h
    rw [hp] at h
    exact absurd h (by simp)
  | cons c cs =>
    unfold identString at h
    rw [hp] at h
    simp only [Bool.and_eq_true] at h
    obtain ⟨hstart, hall⟩ := h
    have hcs : ∀ x ∈ cs, isIdentChar x = true := by
      intro x hx
      exact List.all_eq_true.mp hall x hx
    unfold tokenize
    simp only [tokAux, hstart, if_pos]
    rw [tokAux_all_ident cs hcs c []]
    have : p = ⟨c :: cs⟩ := by
      apply str_ext
      rw [hp]
    rw [this]
    simp

theorem identString_chars (p : String) (h : identString p = true) :
    ∀ x ∈ p.data, isIdentChar x = true := by
  cases hp : p.data with
  | nil => intro x hx; simp at hx
  | cons c cs =>
    unfold identString at h
    rw [hp] at h
    simp only [Bool.and_eq_true] at h
    obtain ⟨hstart, hall⟩ := h
    intro x hx
    rcases List.mem_cons.mp hx with rfl | hx
    · exact identStart_le x hstart
    · exact List.all_eq_true.mp hall x hx

theorem count_ident (p : String) (h : identString p = true) (c : Char)
    (hc : isIdentChar c = false) : p.data.count c = 0 := by
  rw [List.count_eq_zero]
  intro hmem
  rw [identString_chars p h c hmem] at hc
  exact absurd hc (by simp)

theorem append_empty_str (s : String) : s ++ "" = s := by
  apply str_ext
  rw [data_append]
  simp [String.data]

/-! ## Lemmas about `TokOK` and `balanced` -/

theorem TokOK_mono {P Q : List String} (s : String) (hPQ : ∀ x ∈ P, x ∈ Q)
    (h : TokOK P s) : TokOK Q s := by
  intro t ht
  rcases h t ht with h1 | h1
  · exact Or.inl h1
  · exact Or.inr (hPQ t h1)

theorem tokOK_ops {P : List String} (s : String)
    (h : ∀ t ∈ tokenize s.data, t ∈ OPS) : TokOK P s :=
  fun t ht => Or.inl (h t ht)

theorem tokOK_ident {P : List String} (p : String) (hp : identString p = true)
    (hmem : p ∈ P) : TokOK P p := by
  intro t ht
  rw [tokenize_identStr p hp] at ht
  rcases List.mem_singleton.mp ht with rfl
  exact Or.inr hmem

/-- Appending a string whose first character is not an identifier
character preserves `TokOK`. -/
theorem TokOK_append_right {P : List String} (s t : String) (c : Char) (cs : List Char)
    (ht : t.data = c :: cs) (hc : isIdentChar c = false)
    (hs : TokOK P s) (h2 : TokOK P t) : TokOK P (s ++ t) := by
  intro tok htok
  rw [data_append, ht, tokenize_split c hc] at htok
  rcases List.mem_append.mp htok with h | h
  · exact hs tok h
  · apply h2
    rw [ht, tokenize_cons_nonident c hc]
    exact h

/-- Appending after a string whose last character is not an identifier
character preserves `TokOK`. -/
theorem TokOK_append_left {P : List String} (s t : String) (c : Char) (cs : List Char)
    (hsd : s.data = cs ++ [c]) (hc : isIdentChar c = false)
    (hs : TokOK P s) (h2 : TokOK P t) : TokOK P (s ++ t) := by
  intro tok htok
  rw [data_append, hsd, List.append_assoc, List.singleton_append,
    tokenize_split c hc] at htok
  rcases List.mem_append.mp htok with h | h
  · apply hs
    rw [hsd]
    have hsplit := tokenize_split c hc cs []
    simp only [List.append_nil] at hsplit
    rw [hsplit]
    have : tokenize [] = [] := rfl
    rw [this, List.append_nil]
    exact h
  · exact h2 tok h

/-- Variant of `TokOK_append_left` for a left part that syntactically ends
with a literal: `(x ++ lit) ++ u` stays `TokOK` when `lit` ends in a
non-identifier character. -/
theorem TokOK_append_lastLit {P : List String} (x lit u : String) (c : Char)
    (cs : List Char) (hlit : lit.data = cs ++ [c]) (hc : isIdentChar c = false)
    (h1 : TokOK P (x ++ lit)) (h2 : TokOK P u) : TokOK P ((x ++ lit) ++ u) := by
  have hxdata : (x ++ lit).data = (x.data ++ cs) ++ [c] := by
    rw [data_append, hlit, List.append_assoc]
  exact TokOK_append_left (x ++ lit) u c (x.data ++ cs) hxdata hc h1 h2

theorem balanced_append (s t : String) (hs : balanced s) (ht : balanced t) :
    balanced (s ++ t) := by
  unfold balanced at *
  rw [data_append, List.count_append, List.count_append, hs, ht]

theorem balanced_ident (p : String) (h : identString p = true) : balanced p := by
  unfold balanced
  rw [count_ident p h '(' (by decide), count_ident p h ')' (by decide)]

/-- `TokOK` for a Python join, given that the separator both starts and
ends with a non-identifier character. -/
theorem TokOK_pyjoin {P : List String} (sep : String) (c0 : Char) (cs0 : List Char)
    (c1 : Char) (cs1 : List Char)
    (hhead : sep.data = c0 :: cs0) (hc0 : isIdentChar c0 = false)
    (hlast : sep.data = cs1 ++ [c1]) (hc1 : isIdentChar c1 = false)
    (hsep : TokOK P sep) :
    ∀ (ps : List String), (∀ p ∈ ps, TokOK P p) → TokOK P (pyjoin sep ps) := by
  intro ps
  induction ps with
  | nil =>
    intro _ t ht
    have hnil : tokenize (pyjoin sep []).data = [] := rfl
    rw [hnil] at ht
    exact absurd ht (List.not_mem_nil t)
  | cons p ps ih =>
    intro h
    cases ps with
    | nil => exact h p (List.mem_cons_self p [])
    | cons q qs =>
      show TokOK P ((p ++ sep) ++ pyjoin sep (q :: qs))
      apply TokOK_append_lastLit p sep _ c1 cs1 hlast hc1
      · exact TokOK_append_right p sep c0 cs0 hhead hc0
          (h p (List.mem_cons_self p (q :: qs))) hsep
      · exact ih (fun r hr => h r (List.mem_cons_of_mem p hr))

theorem balanced_empty : balanced "" := rfl

theorem balanced_pyjoin (sep : String) (hsep : balanced sep) :
    ∀ (ps : List String), (∀ p ∈ ps, balanced p) → balanced (pyjoin sep ps) := by
  intro ps
  induction ps with
  | nil => intro _; exact balanced_empty
  | cons p ps ih =>
    intro h
    cases ps with
    | nil => exact h p (List.mem_cons_self p [])
    | cons q qs =>
      exact balanced_append _ _
        (balanced_append _ _ (h p (List.mem_cons_self p (q :: qs))) hsep)
        (ih (fun r hr => h r (List.mem_cons_of_mem p hr)))

/-! ## Well-formedness of the generated formula shapes -/

theorem TokOK_wrap_paren {P : List String} (s : String) (h : TokOK P s) :
    TokOK P ("(" ++ s ++ ")") := by
  apply TokOK_append_right _ ")" ')' [] rfl (by decide)
  · exact TokOK_append_left "(" s '(' [] rfl (by decide) (tokOK_ops _ (by decide)) h
  · exact tokOK_ops _ (by decide)

theorem balanced_wrap_paren (s : String) (h : balanced s) :
    balanced ("(" ++ s ++ ")") := by
  unfold balanced at *
  simp only [data_append, List.count_append]
  have e1 : ("(".data.count '(') = 1 := rfl
  have e2 : ("(".data.count ')') = 0 := rfl
  have e3 : (")".data.count '(') = 0 := rfl
  have e4 : (")".data.count ')') = 1 := rfl
  rw [e1, e2, e3, e4, h]
  omega

theorem TokOK_G_paren {P : List String} (s : String) (h : TokOK P s) :
    TokOK P ("G(" ++ s ++ ")") := by
  apply TokOK_append_right _ ")" ')' [] rfl (by decide)
  · exact TokOK_append_left "G(" s '(' ['G'] rfl (by decide) (tokOK_ops _ (by decide)) h
  · exact tokOK_ops _ (by decide)

theorem balanced_G_paren (s : String) (h : balanced s) :
    balanced ("G(" ++ s ++ ")") := by
  unfold balanced at *
  simp only [data_append, List.count_append]
  have e1 : ("G(".data.count '(') = 1 := rfl
  have e2 : ("G(".data.count ')') = 0 := rfl
  have e3 : (")".data.count '(') = 0 := rfl
  have e4 : (")".data.count ')') = 1 := rfl
  rw [e1, e2, e3, e4, h]
  omega

/-- `TokOK` for the common shape `lit ++ prop ++ lit ++ prop ++ lit`. -/
theorem TokOK_lplpl {P : List String} (l1 l2 l3 a b : String)
    (c1 : Char) (cs1 : List Char) (h1 : l1.data = cs1 ++ [c1]) (hc1 : isIdentChar c1 = false)
    (c2 : Char) (cs2 : List Char) (h2 : l2.data = c2 :: cs2) (hc2 : isIdentChar c2 = false)
    (c3 : Char) (cs3 : List Char) (h3 : l2.data = cs3 ++ [c3]) (hc3 : isIdentChar c3 = false)
    (c4 : Char) (cs4 : List Char) (h4 : l3.data = c4 :: cs4) (hc4 : isIdentChar c4 = false)
    (hl1 : TokOK P l1) (hl2 : TokOK P l2) (hl3 : TokOK P l3)
    (ha : identString a = true) (haP : a ∈ P)
    (hb : identString b = true) (hbP : b ∈ P) :
    TokOK P (l1 ++ a ++ l2 ++ b ++ l3) := by
  apply TokOK_append_right _ l3 c4 cs4 h4 hc4 ?_ hl3
  apply TokOK_append_lastLit (l1 ++ a) l2 b c3 cs3 h3 hc3 ?_ (tokOK_ident b hb hbP)
  apply TokOK_append_right _ l2 c2 cs2 h2 hc2 ?_ hl2
  exact TokOK_append_left l1 a c1 cs1 h1 hc1 hl1 (tokOK_ident a ha haP)

theorem balanced_lplpl (l1 l2 l3 a b : String)
    (hlit : balanced (l1 ++ l2 ++ l3))
    (ha : identString a = true) (hb : identString b = true) :
    balanced (l1 ++ a ++ l2 ++ b ++ l3) := by
  unfold balanced at *
  simp only [data_append, List.count_append] at *
  rw [count_ident a ha '(' (by decide), count_ident a ha ')' (by decide),
      count_ident b hb '(' (by decide), count_ident b hb ')' (by decide)]
  omega

/-- Well-formedness of the four manual template formulas. -/
theorem manual_wf {P : List String} (name : String) (acts : List String) (s : String)
    (hm : manual name acts = some s)
    (hacts : ∀ a ∈ acts, identString a = true ∧ a ∈ P) :
    balanced s ∧ TokOK P s := by
  unfold manual at hm
  by_cases h1 : name = "absence2"
  · rw [if_pos h1] at hm
    match acts, hm with
    | [a], hm =>
      obtain ⟨ha, haP⟩ := hacts a (List.mem_cons_self a [])
      obtain rfl : "!F(" ++ a ++ " && X(F(" ++ a ++ ")))" = s := Option.some.inj hm
      constructor
      · exact balanced_lplpl "!F(" " && X(F(" ")))" a a (by decide) ha ha
      · exact TokOK_lplpl "!F(" " && X(F(" ")))" a a
          '(' ['!', 'F'] rfl (by decide)
          ' ' ['&', '&', ' ', 'X', '(', 'F', '('] rfl (by decide)
          '(' [' ', '&', '&', ' ', 'X', '(', 'F'] rfl (by decide)
          ')' [')', ')'] rfl (by decide)
          (tokOK_ops _ (by decide)) (tokOK_ops _ (by decide)) (tokOK_ops _ (by decide))
          ha haP ha haP
  · rw [if_neg h1] at hm
    by_cases h2 : name = "neg_succession"
    · rw [if_pos h2] at hm
      match acts, hm with
      | [a, b], hm =>
        obtain ⟨ha, haP⟩ := hacts a (List.mem_cons_self a [b])
        obtain ⟨hb, hbP⟩ := hacts b (List.mem_cons_of_mem a (List.mem_cons_self b []))
        obtain rfl : "G(" ++ a ++ " -> !F(" ++ b ++ "))" = s := Option.some.inj hm
        constructor
        · exact balanced_lplpl "G(" " -> !F(" "))" a b (by decide) ha hb
        · exact TokOK_lplpl "G(" " -> !F(" "))" a b
            '(' ['G'] rfl (by decide)
            ' ' ['-', '>', ' ', '!', 'F', '('] rfl (by decide)
            '(' [' ', '-', '>', ' ', '!', 'F'] rfl (by decide)
            ')' [')'] rfl (by decide)
            (tokOK_ops _ (by decide)) (tokOK_ops _ (by decide)) (tokOK_ops _ (by decide))
            ha haP hb hbP
    · rw [if_neg h2] at hm
      by_cases h3 : name = "not_coexistence"
      · rw [if_pos h3] at hm
        match acts, hm with
        | [a, b], hm =>
          obtain ⟨ha, haP⟩ := hacts a (List.mem_cons_self a [b])
          obtain ⟨hb, hbP⟩ := hacts b (List.mem_cons_of_mem a (List.mem_cons_self b []))
          obtain rfl : "!((F(" ++ a ++ ")) && (F(" ++ b ++ ")))" = s := Option.some.inj hm
          constructor
          · exact balanced_lplpl "!((F(" ")) && (F(" ")))" a b (by decide) ha hb
          · exact TokOK_lplpl "!((F(" ")) && (F(" ")))" a b
              '(' ['!', '(', '(', 'F'] rfl (by decide)
              ')' [')', ' ', '&', '&', ' ', '(', 'F', '('] rfl (by decide)
              '(' [')', ')', ' ', '&', '&', ' ', '(', 'F'] rfl (by decide)
              ')' [')', ')'] rfl (by decide)
              (tokOK_ops _ (by decide)) (tokOK_ops _ (by decide)) (tokOK_ops _ (by decide))
              ha haP hb hbP
      · rw [if_neg h3] at hm
        by_cases h4 : name = "succession"
        · rw [if_pos h4] at hm
          match acts, hm with
          | [a, b], hm =>
            obtain ⟨ha, haP⟩ := hacts a (List.mem_cons_self a [b])
            obtain ⟨hb, hbP⟩ := hacts b (List.mem_cons_of_mem a (List.mem_cons_self b []))
            obtain rfl : "G(" ++ a ++ " -> F(" ++ b ++ ")) && (!" ++ b ++ ") U " ++ a = s :=
              Option.some.inj hm
            constructor
            · unfold balanced
              simp only [data_append, List.count_append]
              rw [count_ident a ha '(' (by decide), count_ident a ha ')' (by decide),
                  count_ident b hb '(' (by decide), count_ident b hb ')' (by decide)]
              decide
            · apply TokOK_append_lastLit _ ") U " a ' ' [')', ' ', 'U'] rfl (by decide) ?_
                (tokOK_ident a ha haP)
              apply TokOK_append_right _ ") U " ')' [' ', 'U', ' '] rfl (by decide) ?_
                (tokOK_ops _ (by decide))
              apply TokOK_append_lastLit _ ")) && (!" b '!' [')', ')', ' ', '&', '&', ' ', '(']
                rfl (by decide) ?_ (tokOK_ident b hb hbP)
              apply TokOK_append_right _ ")) && (!" ')' [')', ' ', '&', '&', ' ', '(', '!'] rfl
                (by decide) ?_ (tokOK_ops _ (by decide))
              apply TokOK_append_lastLit ("G(" ++ a) " -> F(" b '(' [' ', '-', '>', ' ', 'F']
                rfl (by decide) ?_ (tokOK_ident b hb hbP)
              apply TokOK_append_right _ " -> F(" ' ' ['-', '>', ' ', 'F', '('] rfl (by decide)
                ?_ (tokOK_ops _ (by decide))
              exact TokOK_append_left "G(" a '(' ['G'] rfl (by decide)
                (tokOK_ops _ (by decide)) (tokOK_ident a ha haP)
        · rw [if_neg h4] at hm
          exact absurd hm (by simp)

/-- Well-formedness of the multi-target `response` formula. -/
theorem response_formula_wf {P : List String} (a : String) (rest : List String)
    (ha : identString a = true) (haP : a ∈ P)
    (hrest : ∀ x ∈ rest, identString x = true ∧ x ∈ P) :
    balanced ("G(" ++ a ++ " -> F(" ++ pyjoin " || " rest ++ "))")
    ∧ TokOK P ("G(" ++ a ++ " -> F(" ++ pyjoin " || " rest ++ "))") := by
  have hJb : balanced (pyjoin " || " rest) :=
    balanced_pyjoin " || " rfl rest (fun p hp => balanced_ident p (hrest p hp).1)
  have hJt : TokOK P (pyjoin " || " rest) :=
    TokOK_pyjoin " || " ' ' ['|', '|', ' '] ' ' [' ', '|', '|'] rfl (by decide) rfl
      (by decide) (tokOK_ops _ (by decide)) rest
      (fun p hp => tokOK_ident p (hrest p hp).1 (hrest p hp).2)
  constructor
  · unfold balanced at *
    simp only [data_append, List.count_append]
    rw [count_ident a ha '(' (by decide), count_ident a ha ')' (by decide)]
    have e1 : ("G(".data.count '(') = 1 := rfl
    have e2 : ("G(".data.count ')') = 0 := rfl
    have e3 : (" -> F(".data.count '(') = 1 := rfl
    have e4 : (" -> F(".data.count ')') = 0 := rfl
    have e5 : ("))".data.count '(') = 0 := rfl
    have e6 : ("))".data.count ')') = 2 := rfl
    rw [e1, e2, e3, e4, e5, e6, hJb]
    omega
  · apply TokOK_append_right _ "))" ')' [')'] rfl (by decide) ?_ (tokOK_ops _ (by decide))
    apply TokOK_append_lastLit ("G(" ++ a) " -> F(" _ '(' [' ', '-', '>', ' ', 'F'] rfl
      (by decide) ?_ hJt
    apply TokOK_append_right _ " -> F(" ' ' ['-', '>', ' ', 'F', '('] rfl (by decide) ?_
      (tokOK_ops _ (by decide))
    exact TokOK_append_left "G(" a '(' ['G'] rfl (by decide)
      (tokOK_ops _ (by decide)) (tokOK_ident a ha haP)

theorem exactly_one_terms_cons (before : List String) (p : String) (after : List String) :
    exactly_one_terms before (p :: after) =
      ("(" ++ p ++
          (if ((before ++ after).map (fun q => "!" ++ q)).isEmpty then ""
           else " && " ++ pyjoin " && " ((before ++ after).map (fun q => "!" ++ q))) ++ ")")
        :: exactly_one_terms (before ++ [p]) after := rfl

/-- Well-formedness of one term of the exactly-one disjunction. -/
theorem term_wf {P : List String} (p : String) (negsSrc : List String)
    (hp : identString p = true) (hpP : p ∈ P)
    (hn : ∀ x ∈ negsSrc, identString x = true ∧ x ∈ P) :
    balanced ("(" ++ p ++
        (if (negsSrc.map (fun q => "!" ++ q)).isEmpty then ""
         else " && " ++ pyjoin " && " (negsSrc.map (fun q => "!" ++ q))) ++ ")")
    ∧ TokOK P ("(" ++ p ++
        (if (negsSrc.map (fun q => "!" ++ q)).isEmpty then ""
         else " && " ++ pyjoin " && " (negsSrc.map (fun q => "!" ++ q))) ++ ")") := by
  cases negsSrc with
  | nil =>
    rw [show (([] : List String).map (fun q => "!" ++ q)).isEmpty = true from rfl, if_pos rfl]
    rw [append_empty_str]
    constructor
    · unfold balanced
      simp only [data_append, List.count_append]
      rw [count_ident p hp '(' (by decide), count_ident p hp ')' (by decide)]
      decide
    · apply TokOK_append_right _ ")" ')' [] rfl (by decide) ?_ (tokOK_ops _ (by decide))
      exact TokOK_append_left "(" p '(' [] rfl (by decide)
        (tokOK_ops _ (by decide)) (tokOK_ident p hp hpP)
  | cons n ns =>
    rw [show (((n :: ns) : List String).map (fun q => "!" ++ q)).isEmpty = false from rfl]
    rw [if_neg (by simp)]
    have hnegB : ∀ x ∈ (n :: ns).map (fun q => "!" ++ q), balanced x := by
      intro x hx
      obtain ⟨q, hq, rfl⟩ := List.mem_map.mp hx
      exact balanced_append "!" q (by decide) (balanced_ident q (hn q hq).1)
    have hnegT : ∀ x ∈ (n :: ns).map (fun q => "!" ++ q), TokOK P x := by
      intro x hx
      obtain ⟨q, hq, rfl⟩ := List.mem_map.mp hx
      exact TokOK_append_left "!" q '!' [] rfl (by decide)
        (tokOK_ops _ (by decide)) (tokOK_ident q (hn q hq).1 (hn q hq).2)
    have hJb : balanced (pyjoin " && " ((n :: ns).map (fun q => "!" ++ q))) :=
      balanced_pyjoin " && " (by decide) _ hnegB
    have hJt : TokOK P (pyjoin " && " ((n :: ns).map (fun q => "!" ++ q))) :=
      TokOK_pyjoin " && " ' ' ['&', '&', ' '] ' ' [' ', '&', '&'] rfl (by decide) rfl
        (by decide) (tokOK_ops _ (by decide)) _ hnegT
    constructor
    · unfold balanced at *
      simp only [data_append, List.count_append]
      rw [count_ident p hp '(' (by decide), count_ident p hp ')' (by decide), hJb]
      have e1 : ("(".data.count '(') = 1 := rfl
      have e2 : ("(".data.count ')') = 0 := rfl
      have e3 : (" && ".data.count '(') = 0 := rfl
      have e4 : (" && ".data.count ')') = 0 := rfl
      have e5 : (")".data.count '(') = 0 := rfl
      have e6 : (")".data.count ')') = 1 := rfl
      rw [e1, e2, e3, e4, e5, e6]
      omega
    · apply TokOK_append_right _ ")" ')' [] rfl (by decide) ?_ (tokOK_ops _ (by decide))
      apply TokOK_append_right ("(" ++ p) _ ' ' (['&', '&', ' '] ++
          (pyjoin " && " ((n :: ns).map (fun q => "!" ++ q))).data) rfl (by decide) ?_ ?_
      · exact TokOK_append_left "(" p '(' [] rfl (by decide)
          (tokOK_ops _ (by decide)) (tokOK_ident p hp hpP)
      · exact TokOK_append_left " && " _ ' ' [' ', '&', '&'] rfl (by decide)
          (tokOK_ops _ (by decide)) hJt

theorem exactly_one_terms_wf {P : List String} :
    ∀ (after before : List String),
      (∀ x ∈ before ++ after, identString x = true ∧ x ∈ P) →
      ∀ term ∈ exactly_one_terms before after, balanced term ∧ TokOK P term := by
  intro after
  induction after with
  | nil =>
    intro before _ term ht
    rw [show exactly_one_terms before [] = [] from rfl] at ht
    exact absurd ht (List.not_mem_nil term)
  | cons p after ih =>
    intro before h term ht
    rw [exactly_one_terms_cons] at ht
    have hmem_p : p ∈ before ++ p :: after :=
      List.mem_append_right _ (List.mem_cons_self p after)
    rcases List.mem_cons.mp ht with rfl | ht2
    · apply term_wf p (before ++ after) (h p hmem_p).1 (h p hmem_p).2
      intro x hx
      apply h
      rcases List.mem_append.mp hx with h1 | h1
      · exact List.mem_append_left _ h1
      · exact List.mem_append_right _ (List.mem_cons_of_mem p h1)
    · apply ih (before ++ [p]) ?_ term ht2
      intro x hx
      apply h
      rcases List.mem_append.mp hx with h1 | h1
      · rcases List.mem_append.mp h1 with h2 | h2
        · exact List.mem_append_left _ h2
        · rcases List.mem_singleton.mp h2 with rfl
          exact hmem_p
      · exact List.mem_append_right _ (List.mem_cons_of_mem p h1)

theorem exactly_one_wf {P : List String} (props : List String)
    (h : ∀ x ∈ props, identString x = true ∧ x ∈ P) :
    balanced (exactly_one props) ∧ TokOK P (exactly_one props) := by
  cases props with
  | nil => exact ⟨by decide, tokOK_ops _ (by decide)⟩
  | cons p ps =>
    show balanced ("(" ++ pyjoin " || " (exactly_one_terms [] (p :: ps)) ++ ")")
      ∧ TokOK P ("(" ++ pyjoin " || " (exactly_one_terms [] (p :: ps)) ++ ")")
    have hterms := exactly_one_terms_wf (p :: ps) [] (by simpa using h)
    constructor
    · exact balanced_wrap_paren _
        (balanced_pyjoin " || " (by decide) _ (fun t ht => (hterms t ht).1))
    · exact TokOK_wrap_paren _
        (TokOK_pyjoin " || " ' ' ['|', '|', ' '] ' ' [' ', '|', '|'] rfl (by decide) rfl
          (by decide) (tokOK_ops _ (by decide)) _ (fun t ht => (hterms t ht).2))

theorem simple_trace_wf {P : List String} (props : List String)
    (h : ∀ x ∈ props, identString x = true ∧ x ∈ P) :
    balanced (simple_trace_semantics props) ∧ TokOK P (simple_trace_semantics props) := by
  obtain ⟨hb, ht⟩ := exactly_one_wf props h
  exact ⟨balanced_G_paren _ hb, TokOK_G_paren _ ht⟩

/-- Token shape of the strict-alternation formula, as a function of the
two disjunction strings. -/
theorem TokOK_alt_shape {P : List String} (e s : String)
    (he : TokOK P e) (hs : TokOK P s) :
    TokOK P ("G((" ++ e ++ ") -> X(" ++ s ++ ")) && G((" ++ s ++ ") -> X(" ++ e ++ "))") := by
  apply TokOK_append_right _ "))" ')' [')'] rfl (by decide) ?_ (tokOK_ops _ (by decide))
  apply TokOK_append_lastLit _ ") -> X(" e '(' [')', ' ', '-', '>', ' ', 'X'] rfl
    (by decide) ?_ he
  apply TokOK_append_right _ ") -> X(" ')' [' ', '-', '>', ' ', 'X', '('] rfl (by decide) ?_
    (tokOK_ops _ (by decide))
  apply TokOK_append_lastLit _ ")) && G((" s '(' [')', ')', ' ', '&', '&', ' ', 'G', '(']
    rfl (by decide) ?_ hs
  apply TokOK_append_right _ ")) && G((" ')' [')', ' ', '&', '&', ' ', 'G', '(', '('] rfl
    (by decide) ?_ (tokOK_ops _ (by decide))
  apply TokOK_append_lastLit _ ") -> X(" s '(' [')', ' ', '-', '>', ' ', 'X'] rfl
    (by decide) ?_ hs
  apply TokOK_append_right _ ") -> X(" ')' [' ', '-', '>', ' ', 'X', '('] rfl (by decide) ?_
    (tokOK_ops _ (by decide))
  exact TokOK_append_left "G((" e '(' ['G', '('] rfl (by decide)
    (tokOK_ops _ (by decide)) he

theorem balanced_alt_shape (e s : String) (he : balanced e) (hs : balanced s) :
    balanced ("G((" ++ e ++ ") -> X(" ++ s ++ ")) && G((" ++ s ++ ") -> X(" ++ e ++ "))") := by
  unfold balanced at *
  simp only [data_append, List.count_append]
  have e1 : ("G((".data.count '(') = 2 := rfl
  have e2 : ("G((".data.count ')') = 0 := rfl
  have e3 : (") -> X(".data.count '(') = 1 := rfl
  have e4 : (") -> X(".data.count ')') = 1 := rfl
  have e5 : (")) && G((".data.count '(') = 2 := rfl
  have e6 : (")) && G((".data.count ')') = 2 := rfl
  have e7 : ("))".data.count '(') = 0 := rfl
  have e8 : ("))".data.count ')') = 2 := rfl
  rw [e1, e2, e3, e4, e5, e6, e7, e8, he, hs]
  omega

theorem any_disj_wf {P : List String} (l : List String)
    (h : ∀ x ∈ l, identString x = true ∧ x ∈ P) :
    balanced (if l.isEmpty then "false" else "(" ++ pyjoin " || " l ++ ")")
    ∧ TokOK P (if l.isEmpty then "false" else "(" ++ pyjoin " || " l ++ ")") := by
  cases l with
  | nil => exact ⟨by decide, tokOK_ops _ (by decide)⟩
  | cons q qs =>
    rw [show ((q :: qs : List String).isEmpty) = false from rfl]
    simp only [Bool.false_eq_true, if_false]
    constructor
    · exact balanced_wrap_paren _
        (balanced_pyjoin " || " (by decide) _ (fun x hx => balanced_ident x (h x hx).1))
    · exact TokOK_wrap_paren _
        (TokOK_pyjoin " || " ' ' ['|', '|', ' '] ' ' [' ', '|', '|'] rfl (by decide) rfl
          (by decide) (tokOK_ops _ (by decide)) _
          (fun x hx => tokOK_ident x (h x hx).1 (h x hx).2))

theorem strict_alternation_eq (env sysl : List String) :
    strict_alternation env sysl =
      "G((" ++ (if env.isEmpty then "false" else "(" ++ pyjoin " || " env ++ ")") ++
      ") -> X(" ++ (if sysl.isEmpty then "false" else "(" ++ pyjoin " || " sysl ++ ")") ++
      ")) && G((" ++ (if sysl.isEmpty then "false" else "(" ++ pyjoin " || " sysl ++ ")") ++
      ") -> X(" ++ (if env.isEmpty then "false" else "(" ++ pyjoin " || " env ++ ")") ++
      "))" := rfl

theorem strict_alternation_wf {P : List String} (env sysl : List String)
    (hE : ∀ x ∈ env, identString x = true ∧ x ∈ P)
    (hS : ∀ x ∈ sysl, identString x = true ∧ x ∈ P) :
    balanced (strict_alternation env sysl) ∧ TokOK P (strict_alternation env sysl) := by
  obtain ⟨hEb, hEt⟩ := any_disj_wf env hE
  obtain ⟨hSb, hSt⟩ := any_disj_wf sysl hS
  rw [strict_alternation_eq]
  exact ⟨balanced_alt_shape _ _ hEb hSb, TokOK_alt_shape _ _ hEt hSt⟩

theorem conj_wf {P : List String} (parts : List String)
    (h : ∀ f ∈ parts, balanced f ∧ TokOK P f) :
    balanced (conj parts) ∧ TokOK P (conj parts) := by
  unfold conj
  cases hf : parts.filter (fun p => !(isBlank p)) with
  | nil => exact ⟨by decide, tokOK_ops _ (by decide)⟩
  | cons q qs =>
    show balanced ("(" ++ pyjoin ") && (" (q :: qs) ++ ")")
      ∧ TokOK P ("(" ++ pyjoin ") && (" (q :: qs) ++ ")")
    have hsel : ∀ f ∈ q :: qs, balanced f ∧ TokOK P f := by
      intro f hm
      apply h
      apply List.mem_of_mem_filter (p := fun p => !(isBlank p))
      rw [hf]
      exact hm
    constructor
    · exact balanced_wrap_paren _
        (balanced_pyjoin ") && (" (by decide) _ (fun f hm => (hsel f hm).1))
    · exact TokOK_wrap_paren _
        (TokOK_pyjoin ") && (" ')' [' ', '&', '&', ' ', '('] '(' [')', ' ', '&', '&', ' ']
          rfl (by decide) rfl (by decide) (tokOK_ops _ (by decide)) _
          (fun f hm => (hsel f hm).2))

/-! ## Well-formedness through the pipeline -/

theorem declare4py_nil (fill : String → List (List String) → Option String) (name : String) :
    declare4py fill name [] = (fill name [[]]).map clean := rfl

theorem declare4py_one (fill : String → List (List String) → Option String)
    (name a : String) :
    declare4py fill name [a] = (fill name [[a]]).map clean := rfl

theorem declare4py_two (fill : String → List (List String) → Option String)
    (name a b : String) :
    declare4py fill name [a, b] = (fill name [[a], [b]]).map clean := rfl

theorem declare4py_long (fill : String → List (List String) → Option String)
    (name a b c : String) (rest : List String) :
    declare4py fill name (a :: b :: c :: rest) =
      (if lower name = "response" then
        some ("G(" ++ a ++ " -> F(" ++ pyjoin " || " (b :: c :: rest) ++ "))")
      else none) := rfl

theorem declare4py_wf {P : List String} (fill : String → List (List String) → Option String)
    (name : String) (acts : List String) (s : String)
    (hfill : ∀ nm argss s0, fill nm argss = some s0 →
        balanced (clean s0) ∧ TokOK argss.flatten (clean s0))
    (hacts : ∀ a ∈ acts, identString a = true ∧ a ∈ P)
    (hd : declare4py fill name acts = some s) :
    balanced s ∧ TokOK P s := by
  cases acts with
  | nil =>
    rw [declare4py_nil, Option.map_eq_some'] at hd
    obtain ⟨s0, hf0, rfl⟩ := hd
    obtain ⟨hb, ht⟩ := hfill name [[]] s0 hf0
    refine ⟨hb, TokOK_mono _ ?_ ht⟩
    intro x hx
    simp at hx
  | cons a rest1 =>
    cases rest1 with
    | nil =>
      rw [declare4py_one, Option.map_eq_some'] at hd
      obtain ⟨s0, hf0, rfl⟩ := hd
      obtain ⟨hb, ht⟩ := hfill name [[a]] s0 hf0
      refine ⟨hb, TokOK_mono _ ?_ ht⟩
      intro x hx
      simp at hx
      rcases hx with rfl
      exact (hacts _ (List.mem_cons_self _ _)).2
    | cons b rest2 =>
      cases rest2 with
      | nil =>
        rw [declare4py_two, Option.map_eq_some'] at hd
        obtain ⟨s0, hf0, rfl⟩ := hd
        obtain ⟨hb, ht⟩ := hfill name [[a], [b]] s0 hf0
        refine ⟨hb, TokOK_mono _ ?_ ht⟩
        intro x hx
        simp at hx
        rcases hx with rfl | rfl
        · exact (hacts _ (List.mem_cons_self _ _)).2
        · exact (hacts _ (List.mem_cons_of_mem _ (List.mem_cons_self _ _))).2
      | cons c rest =>
        rw [declare4py_long] at hd
        by_cases hr : lower name = "response"
        · rw [if_pos hr] at hd
          obtain rfl : "G(" ++ a ++ " -> F(" ++ pyjoin " || " (b :: c :: rest) ++ "))" = s :=
            Option.some.inj hd
          exact response_formula_wf a (b :: c :: rest)
            (hacts a (List.mem_cons_self a _)).1 (hacts a (List.mem_cons_self a _)).2
            (fun x hx => hacts x (List.mem_cons_of_mem a hx))
        · rw [if_neg hr] at hd
          exact absurd hd (by simp)

theorem expand1_wf {P : List String} (fill : String → List (List String) → Option String)
    (name : String) (acts : List String) (s : String)
    (hfill : ∀ nm argss s0, fill nm argss = some s0 →
        balanced (clean s0) ∧ TokOK argss.flatten (clean s0))
    (hacts : ∀ a ∈ acts, identString a = true ∧ a ∈ P)
    (he : expand1 fill name acts = some s) :
    balanced s ∧ TokOK P s := by
  unfold expand1 at he
  by_cases hm : name ∈ manual_names
  · rw [if_pos hm] at he
    exact manual_wf name acts s he hacts
  · rw [if_neg hm] at he
    exact declare4py_wf fill name acts s hfill hacts he

theorem generate_wf {P : List String} (fill : String → List (List String) → Option String)
    (parseOk : String → Bool) (cs : List RawConstraint)
    (hfill : ∀ nm argss s0, fill nm argss = some s0 →
        balanced (clean s0) ∧ TokOK argss.flatten (clean s0))
    (hacts : ∀ c ∈ cs, ∀ a ∈ c.activities, identString a = true ∧ a ∈ P) :
    ∀ r ∈ generate fill parseOk cs, balanced r.ltlf ∧ TokOK P r.ltlf := by
  induction cs with
  | nil =>
    intro r hr
    rw [show generate fill parseOk [] = [] from rfl] at hr
    exact absurd hr (List.not_mem_nil r)
  | cons c cs ih =>
    intro r hr
    rw [generate_cons_eq] at hr
    rcases List.mem_append.mp hr with h1 | h2
    · obtain ⟨t, as⟩ := c
      rw [gen1_mk] at h1
      by_cases hmem : lower t ∈ supported
      · rw [if_pos hmem] at h1
        cases hexp : expand1 fill (lower t) as with
        | none => rw [hexp] at h1; simp at h1
        | some s =>
          rw [hexp] at h1
          by_cases hp : parseOk s = true
          · simp [hp] at h1
            subst h1
            exact expand1_wf fill (lower t) as s hfill
              (hacts ⟨t, as⟩ (List.mem_cons_self _ cs)) hexp
          · simp [hp] at h1
      · rw [if_neg hmem] at h1
        simp at h1
    · exact ih (fun c2 hc2 => hacts c2 (List.mem_cons_of_mem c hc2)) r h2

theorem atoms_subset_of_tokOK {P : List String} (s : String) (h : TokOK P s) :
    ∀ t ∈ atoms_in s, t ∈ P := by
  intro t ht
  unfold atoms_in at ht
  obtain ⟨hmem, hfilt⟩ := List.mem_filter.mp ht
  rcases h t hmem with hOPS | hP
  · exfalso
    have hc : OPS.contains t = true := List.elem_eq_true_of_mem hOPS
    rw [hc] at hfilt
    simp at hfilt
  · exact hP

/-- Well-formedness of the final implication string. -/
theorem contract_shape_wf {P : List String} (left right : String)
    (hLb : balanced left) (hLt : TokOK P left)
    (hRb : balanced right) (hRt : TokOK P right) :
    balanced ("(" ++ left ++ ") -> (" ++ right ++ ")")
    ∧ TokOK P ("(" ++ left ++ ") -> (" ++ right ++ ")") := by
  constructor
  · unfold balanced at *
    simp only [data_append, List.count_append]
    have e1 : ("(".data.count '(') = 1 := rfl
    have e2 : ("(".data.count ')') = 0 := rfl
    have e3 : (") -> (".data.count '(') = 1 := rfl
    have e4 : (") -> (".data.count ')') = 1 := rfl
    have e5 : (")".data.count '(') = 0 := rfl
    have e6 : (")".data.count ')') = 1 := rfl
    rw [e1, e2, e3, e4, e5, e6, hLb, hRb]
    omega
  · apply TokOK_append_right _ ")" ')' [] rfl (by decide) ?_ (tokOK_ops _ (by decide))
    apply TokOK_append_lastLit ("(" ++ left) ") -> (" right '(' [')', ' ', '-', '>', ' ']
      rfl (by decide) ?_ hRt
    apply TokOK_append_right _ ") -> (" ')' [' ', '-', '>', ' ', '('] rfl (by decide) ?_
      (tokOK_ops _ (by decide))
    exact TokOK_append_left "(" left '(' [] rfl (by decide) (tokOK_ops _ (by decide)) hLt

set_option maxHeartbeats 2000000 in
/-- Claim C9 counterexample: `build_contract` run on a guarantee using the
fresh proposition `z` (never declared in environment or system) yields a
contract formula containing the atom `z`, so the claim's atom invariant
fails as stated. -/
theorem contract_atoms_cex :
    "z" ∈ atoms_in (build_contract (fun _ _ => none) (fun _ => true)
        ⟨["e"], ["s"], [], [⟨"absence2", ["z"]⟩]⟩).contract_ltlf
    ∧ "z" ∉ (["e"] ++ ["s"] : List String) := by
  constructor <;> decide

set_option maxHeartbeats 1600000 in
/-- Claim C9 amended: provided every proposition name is an identifier,
every constraint activity is drawn from environment ∪ system, and the
external template library only returns balanced formulas over the
activities it is handed, the final implication formula is syntactically
balanced and every atom in it belongs to environment ∪ system. -/
theorem contract_wellformed (fill : String → List (List String) → Option String)
    (parseOk : String → Bool) (spec : CoSpec)
    (hid : ∀ p ∈ spec.environment ++ spec.system, identString p = true)
    (hacts : ∀ c ∈ spec.assumptions ++ spec.guarantees, ∀ a ∈ c.activities,
        a ∈ spec.environment ++ spec.system)
    (hfill : ∀ nm argss s0, fill nm argss = some s0 →
        balanced (clean s0) ∧ TokOK argss.flatten (clean s0)) :
    balanced (build_contract fill parseOk spec).contract_ltlf
    ∧ ∀ t ∈ atoms_in (build_contract fill parseOk spec).contract_ltlf,
        t ∈ spec.environment ++ spec.system := by
  have hactsA : ∀ c ∈ spec.assumptions, ∀ a ∈ c.activities,
      identString a = true ∧ a ∈ spec.environment ++ spec.system := by
    intro c hc a ha
    have hm := hacts c (List.mem_append_left _ hc) a ha
    exact ⟨hid a hm, hm⟩
  have hactsG : ∀ c ∈ spec.guarantees, ∀ a ∈ c.activities,
      identString a = true ∧ a ∈ spec.environment ++ spec.system := by
    intro c hc a ha
    have hm := hacts c (List.mem_append_right _ hc) a ha
    exact ⟨hid a hm, hm⟩
  have hgenA := generate_wf fill parseOk spec.assumptions hfill hactsA
  have hgenG := generate_wf fill parseOk spec.guarantees hfill hactsG
  have hEnv : ∀ x ∈ spec.environment, identString x = true ∧
      x ∈ spec.environment ++ spec.system := by
    intro x hx
    exact ⟨hid x (List.mem_append_left _ hx), List.mem_append_left _ hx⟩
  have hSys : ∀ x ∈ spec.system, identString x = true ∧
      x ∈ spec.environment ++ spec.system := by
    intro x hx
    exact ⟨hid x (List.mem_append_right _ hx), List.mem_append_right _ hx⟩
  have hsemE := simple_trace_wf (P := spec.environment ++ spec.system)
    spec.environment hEnv
  have hsemS := simple_trace_wf (P := spec.environment ++ spec.system)
    spec.system hSys
  have halt := strict_alternation_wf (P := spec.environment ++ spec.system)
    spec.environment spec.system hEnv hSys
  have hcl1 : ∀ r ∈ (auto_reclassify (generate fill parseOk spec.assumptions)
      (generate fill parseOk spec.guarantees) spec.environment spec.system).1,
      balanced r.ltlf ∧ TokOK (spec.environment ++ spec.system) r.ltlf := by
    intro r hr
    rw [auto_reclassify_filter] at hr
    rcases List.mem_append.mp (List.mem_of_mem_filter hr) with h1 | h1
    · exact hgenA r h1
    · exact hgenG r h1
  have hcl2 : ∀ r ∈ (auto_reclassify (generate fill parseOk spec.assumptions)
      (generate fill parseOk spec.guarantees) spec.environment spec.system).2,
      balanced r.ltlf ∧ TokOK (spec.environment ++ spec.system) r.ltlf := by
    intro r hr
    rw [auto_reclassify_filter] at hr
    rcases List.mem_append.mp (List.mem_of_mem_filter hr) with h1 | h1
    · exact hgenA r h1
    · exact hgenG r h1
  have hAtext := conj_wf (P := spec.environment ++ spec.system)
    ((auto_reclassify (generate fill parseOk spec.assumptions)
      (generate fill parseOk spec.guarantees) spec.environment spec.system).1.map
        (fun x => x.ltlf))
    (by
      intro f hf
      obtain ⟨r, hr, rfl⟩ := List.mem_map.mp hf
      exact hcl1 r hr)
  have hGtext := conj_wf (P := spec.environment ++ spec.system)
    ((auto_reclassify (generate fill parseOk spec.assumptions)
      (generate fill parseOk spec.guarantees) spec.environment spec.system).2.map
        (fun x => x.ltlf))
    (by
      intro f hf
      obtain ⟨r, hr, rfl⟩ := List.mem_map.mp hf
      exact hcl2 r hr)
  have hleft := conj_wf (P := spec.environment ++ spec.system)
    [conj ((auto_reclassify (generate fill parseOk spec.assumptions)
        (generate fill parseOk spec.guarantees) spec.environment spec.system).1.map
          (fun x => x.ltlf)),
     simple_trace_semantics spec.environment,
     strict_alternation spec.environment spec.system]
    (by
      intro f hf
      rcases List.mem_cons.mp hf with rfl | hf
      · exact hAtext
      rcases List.mem_cons.mp hf with rfl | hf
      · exact hsemE
      rcases List.mem_cons.mp hf with rfl | hf
      · exact halt
      · exact absurd hf (List.not_mem_nil f))
  have hright := conj_wf (P := spec.environment ++ spec.system)
    [conj ((auto_reclassify (generate fill parseOk spec.assumptions)
        (generate fill parseOk spec.guarantees) spec.environment spec.system).2.map
          (fun x => x.ltlf)),
     simple_trace_semantics spec.system,
     strict_alternation spec.environment spec.system]
    (by
      intro f hf
      rcases List.mem_cons.mp hf with rfl | hf
      · exact hGtext
      rcases List.mem_cons.mp hf with rfl | hf
      · exact hsemS
      rcases List.mem_cons.mp hf with rfl | hf
      · exact halt
      · exact absurd hf (List.not_mem_nil f))
  obtain ⟨hLb, hLt⟩ := hleft
  obtain ⟨hRb, hRt⟩ := hright
  have hfinal := contract_shape_wf _ _ hLb hLt hRb hRt
  exact ⟨hfinal.1, atoms_subset_of_tokOK _ hfinal.2⟩

/-- Claim C9 amended, witness at a concrete one-guarantee specification
with an oracle that never produces a formula. -/
theorem contract_wellformed_witness :
    balanced (build_contract (fun _ _ => none) (fun _ => true)
        ⟨["e"], ["s"], [], [⟨"response", ["e", "s"]⟩]⟩).contract_ltlf
    ∧ ∀ t ∈ atoms_in (build_contract (fun _ _ => none) (fun _ => true)
        ⟨["e"], ["s"], [], [⟨"response", ["e", "s"]⟩]⟩).contract_ltlf,
        t ∈ (["e"] : List String) ++ ["s"] :=
  contract_wellformed (fun _ _ => none) (fun _ => true)
    ⟨["e"], ["s"], [], [⟨"response", ["e", "s"]⟩]⟩
    (by decide) (by decide) (fun nm argss s0 h => Option.noConfusion h)

end CoDeclare
